import Mathlib

/-!
Shallow embedding of `class_clients.py`.

Modelling choices:
* Python `str` is `List Char` (exact code-point equality, as Python `==`).
* Python `float` rates are exact rationals `ℚ`; the spec explicitly allows a
  rational-valued model of the rates (section 4.2 / design notes).
* Python exceptions are `Except PyErr`; the only exceptions the program can
  raise are `ValueError` (from tuple unpacking / `int()`) and
  `ZeroDivisionError` (from `/`).  `float('-inf')` / `float('inf')` in the
  scan state are `⊥ : WithBot ℚ` and `⊤ : WithTop ℤ`.
* The filesystem is a map from filenames to the optional list of the file's
  lines (the lines produced by `readlines`, with the trailing newline dropped;
  `strip()` removes it anyway, so this is behaviour-preserving).
* Total-`ℚ` variants of the two extremal searches use `ℚ` division (which is
  total); the `..Chk` variants model the `ZeroDivisionError` branch exactly
  and are proved to agree with the total ones whenever no account age is 0.
-/

/-- The Python exceptions this program can raise. -/
inductive PyErr where
  | valueError
  | zeroDivisionError
deriving DecidableEq

/-- Python `class Client` (class_clients.py lines 5-31): a plain record with the five
constructor-assigned attributes. -/
structure Client where
  name : List Char
  bank : List Char
  account_age : ℤ
  starting_amount : ℤ
  current_amount : ℤ
deriving DecidableEq

/-- Method `Client.earnings_per_day` (line 48):
`(self.current_amount - self.starting_amount) / self.account_age`,
as an exact rational. -/
def Client.earnings_per_day (c : Client) : ℚ :=
  ((c.current_amount : ℚ) - (c.starting_amount : ℚ)) / (c.account_age : ℚ)

/-- The per-record rate computed inline in `largest_loss_per_day` (line 114):
`(client.starting_amount - client.current_amount) / client.account_age`. -/
def loss_per_day (c : Client) : ℚ :=
  ((c.starting_amount : ℚ) - (c.current_amount : ℚ)) / (c.account_age : ℚ)

/-- Variant of `Client.earnings_per_day` with the `ZeroDivisionError` branch of Python's
`/` modelled explicitly. -/
def Client.earnings_per_day_chk (c : Client) : Except PyErr ℚ :=
  if c.account_age = 0 then .error .zeroDivisionError else .ok c.earnings_per_day

/-- The loss rate of line 114 with the `ZeroDivisionError` branch of Python's
`/` modelled explicitly. -/
def loss_per_day_chk (c : Client) : Except PyErr ℚ :=
  if c.account_age = 0 then .error .zeroDivisionError else .ok (loss_per_day c)

/-- The loop state of both extremal scans:
`(max_rate, earliest_time, result)` (lines 86-88 / 109-111). -/
abbrev ScanState : Type := WithBot ℚ × WithTop ℤ × Option Client

/-- Initial state: `max_earning = float('-inf'); earliest_time = float('inf'); result = None`. -/
def initState : ScanState := (⊥, ⊤, none)

/-- One iteration of the scan loop body (lines 92-95 / 115-118): update the
best-so-far exactly when `rate > max_rate` or (`rate == max_rate` and
`account_age < earliest_time`). -/
def updateBest (st : ScanState) (rate : ℚ) (c : Client) : ScanState :=
  if (rate : WithBot ℚ) > st.1 ∨
      ((rate : WithBot ℚ) = st.1 ∧ (c.account_age : WithTop ℤ) < st.2.1) then
    ((rate : WithBot ℚ), (c.account_age : WithTop ℤ), some c)
  else
    st

/-- The final threshold (lines 97 / 120):
`return result if max_rate > 0 else None`. -/
def finalGate (st : ScanState) : Option Client :=
  if ((0 : ℚ) : WithBot ℚ) < st.1 then st.2.2 else none

/-- The record-level core of `largest_earnings_per_day` (lines 86-97), applied
to an already-materialised client list; rates are total `ℚ` division. -/
def largestEarnings (clients : List Client) : Option Client :=
  finalGate (clients.foldl (fun st c => updateBest st c.earnings_per_day c) initState)

/-- The record-level core of `largest_loss_per_day` (lines 109-120). -/
def largestLoss (clients : List Client) : Option Client :=
  finalGate (clients.foldl (fun st c => updateBest st (loss_per_day c) c) initState)

/-- The scan loop with the rate computation allowed to raise (Python's `/`
raises `ZeroDivisionError` inside the loop and the exception propagates). -/
def scanChk (rate : Client → Except PyErr ℚ) : ScanState → List Client → Except PyErr ScanState
  | st, [] => .ok st
  | st, c :: rest =>
    match rate c with
    | .error e => .error e
    | .ok r => scanChk rate (updateBest st r c) rest

/-- Loop and threshold of `largest_earnings_per_day` with `ZeroDivisionError`
modelled (lines 86-97). -/
def largestEarningsChk (clients : List Client) : Except PyErr (Option Client) :=
  (scanChk Client.earnings_per_day_chk initState clients).map finalGate

/-- Loop and threshold of `largest_loss_per_day` with `ZeroDivisionError`
modelled (lines 109-120). -/
def largestLossChk (clients : List Client) : Except PyErr (Option Client) :=
  (scanChk loss_per_day_chk initState clients).map finalGate

/-- The whitespace set stripped by Python's `str.strip()` / accepted around an
`int()` literal (ASCII fragment). -/
def isPySpace (c : Char) : Bool :=
  c == ' ' || c == '\t' || c == '\n' || c == '\r' || c == '\x0b' || c == '\x0c'

/-- Drop leading Python whitespace. -/
def stripLeft (l : List Char) : List Char := l.dropWhile isPySpace

/-- Python `str.strip()`: drop leading and trailing whitespace. -/
def pyStrip (l : List Char) : List Char :=
  (stripLeft (stripLeft l).reverse).reverse

/-- Python `str.split(sep)` for a single-character separator:
`''.split(',') = ['']`, and every occurrence of the separator starts a new
field. -/
def splitOn (sep : Char) : List Char → List (List Char)
  | [] => [[]]
  | c :: rest =>
    if c = sep then [] :: splitOn sep rest
    else
      match splitOn sep rest with
      | [] => [[c]]
      | f :: fs => (c :: f) :: fs

/-- Digit-run tail of Python's `int()` grammar: after a first digit, digits
with single underscores allowed between digits (`pending` records that the
previous character was an underscore, which must be followed by a digit). -/
def pyDigitsAux : ℕ → Bool → List Char → Option ℕ
  | acc, false, [] => some acc
  | _, true, [] => none
  | acc, pending, c :: rest =>
    if c.isDigit then pyDigitsAux (10 * acc + (c.toNat - 48)) false rest
    else if c = '_' ∧ pending = false then pyDigitsAux acc true rest
    else none

/-- The unsigned part of Python's `int()`: a leading digit then `pyDigitsAux`. -/
def pyIntNat : List Char → Option ℕ
  | [] => none
  | c :: rest => if c.isDigit then pyDigitsAux (c.toNat - 48) false rest else none

/-- Python `int(s)` on a string: strip whitespace, optional sign, nonempty
digit run; `none` models the `ValueError`. -/
def pyInt (l : List Char) : Option ℤ :=
  match pyStrip l with
  | '-' :: rest => (pyIntNat rest).map (fun n => -(n : ℤ))
  | '+' :: rest => (pyIntNat rest).map (fun n => (n : ℤ))
  | s => (pyIntNat s).map (fun n => (n : ℤ))

/-- The five-way unpack plus the three `int()` casts of line 61-62, applied to
the result of the split.  A field count other than five is the `ValueError`
of tuple unpacking; a failed cast is the `ValueError` of `int()`. -/
def parseFields : List (List Char) → Except PyErr Client
  | [n, b, a, s, cu] =>
    match pyInt a, pyInt s, pyInt cu with
    | some av, some sv, some cv => .ok ⟨n, b, av, sv, cv⟩
    | _, _, _ => .error .valueError
  | _ => .error .valueError

/-- Line 61-62: `line.strip().split(',')` then unpack and cast. -/
def parseLine (line : List Char) : Except PyErr Client :=
  parseFields (splitOn ',' (pyStrip line))

/-- The `for line in file.readlines()` loop of lines 60-62: clients are
appended in file order; the first raising line aborts the whole call. -/
def parseLines : List (List Char) → Except PyErr (List Client)
  | [] => .ok []
  | l :: rest =>
    match parseLine l with
    | .error e => .error e
    | .ok c =>
      match parseLines rest with
      | .error e => .error e
      | .ok cs => .ok (c :: cs)

/-- The filesystem: a filename maps to the file's lines, or `none` when no
such file exists. -/
def FileSys : Type := List Char → Option (List (List Char))

/-- Function `read_from_file_into_list` (lines 50-65): a missing file is caught
(`FileNotFoundError`), a notice is printed (an I/O effect outside this value
model) and the empty list is returned; otherwise each line is parsed and any
`ValueError` propagates. -/
def read_from_file_into_list (fs : FileSys) (filename : List Char) : Except PyErr (List Client) :=
  match fs filename with
  | none => .ok []
  | some lines => parseLines lines

/-- The list comprehension of line 76. -/
def filterClients (clients : List Client) (bank : List Char) : List Client :=
  clients.filter (fun c => c.bank == bank)

/-- Function `filter_by_bank` (lines 67-76). -/
def filter_by_bank (fs : FileSys) (filename bank : List Char) : Except PyErr (List Client) :=
  (read_from_file_into_list fs filename).map (fun clients => filterClients clients bank)

/-- Function `largest_earnings_per_day` (lines 78-97): read the file, then scan. -/
def largest_earnings_per_day (fs : FileSys) (filename : List Char) : Except PyErr (Option Client) :=
  (read_from_file_into_list fs filename).bind largestEarningsChk

/-- Function `largest_loss_per_day` (lines 99-120): read the file, then scan. -/
def largest_loss_per_day (fs : FileSys) (filename : List Char) : Except PyErr (Option Client) :=
  (read_from_file_into_list fs filename).bind largestLossChk

/-- Swap a record's starting and current amounts (the transformation relating
the loss rate to the earn rate). -/
def swapAmounts (c : Client) : Client :=
  { c with starting_amount := c.current_amount, current_amount := c.starting_amount }

/-- The comparison key the scan loop optimises for a given rate function:
lexicographically, maximal rate first, then minimal (negated) account age. -/
def genKey (rate : Client → ℚ) (c : Client) : Lex (ℚ × ℤ) :=
  toLex (rate c, -c.account_age)

/-- The earn-mode key. -/
def earnKey : Client → Lex (ℚ × ℤ) := genKey Client.earnings_per_day

/-- The loss-mode key. -/
def lossKey : Client → Lex (ℚ × ℤ) := genKey loss_per_day

/-- The generic scan: both `largestEarnings` and `largestLoss` are instances. -/
def largestGen (rate : Client → ℚ) (clients : List Client) : Option Client :=
  finalGate (clients.foldl (fun st c => updateBest st (rate c) c) initState)

/-- The scan state determined by the current best record (or the initial
state when no record has been seen): the invariant shape of the loop state. -/
def stOf (rate : Client → ℚ) : Option Client → ScanState
  | none => initState
  | some b => ((rate b : WithBot ℚ), (b.account_age : WithTop ℤ), some b)

/-- The image of a scan state under swapping the amounts of the best record. -/
def stSwap (st : ScanState) : ScanState := (st.1, st.2.1, st.2.2.map swapAmounts)

/-- The empty filesystem: no file exists. -/
def fsMissing : FileSys := fun _ => none

/-- A filesystem in which every file consists of a single empty line. -/
def fsBlank : FileSys := fun _ => some [[]]

/-- The name of the data file used by the program's `__main__` block. -/
def fname_main : List Char := "clients_info.txt".toList

/-- The five lines of the spec's concrete scenario, in the input file format. -/
def clients_info : List (List Char) :=
  ["Ann,Sprint,10,1000,1000".toList,
   "Mark,Sprint,5,500,600".toList,
   "Josh,Chase,2,100,300".toList,
   "Jonah,Chase,100,1000,900".toList,
   "Franz,WellsFargo,4,1000,200".toList]

/-- The filesystem holding the concrete-scenario data file. -/
def fs_main : FileSys :=
  fun fn => if fn = fname_main then some clients_info else none

/-- The records of the concrete scenario. -/
def ann : Client := ⟨"Ann".toList, "Sprint".toList, 10, 1000, 1000⟩

def mark : Client := ⟨"Mark".toList, "Sprint".toList, 5, 500, 600⟩

def josh : Client := ⟨"Josh".toList, "Chase".toList, 2, 100, 300⟩

def jonah : Client := ⟨"Jonah".toList, "Chase".toList, 100, 1000, 900⟩

def franz : Client := ⟨"Franz".toList, "WellsFargo".toList, 4, 1000, 200⟩

/-- One well-formed row of the input file: the five text fields together with
the values of the three numeric fields. -/
structure Row where
  nameF : List Char
  bankF : List Char
  ageF : List Char
  startF : List Char
  currF : List Char
  ageV : ℤ
  startV : ℤ
  currV : ℤ

/-- The text line a row denotes. -/
def rowLine (r : Row) : List Char :=
  r.nameF ++ ',' :: (r.bankF ++ ',' :: (r.ageF ++ ',' :: (r.startF ++ ',' :: r.currF)))

/-- The record a row denotes. -/
def rowClient (r : Row) : Client :=
  ⟨r.nameF, r.bankF, r.ageV, r.startV, r.currV⟩

/-- Well-formedness of a row: no field contains the separator, the assembled
line carries no surrounding whitespace, and the numeric fields are integer
literals denoting the stored values. -/
def goodRow (r : Row) : Prop :=
  ',' ∉ r.nameF ∧ ',' ∉ r.bankF ∧ ',' ∉ r.ageF ∧ ',' ∉ r.startF ∧ ',' ∉ r.currF ∧
  pyStrip (rowLine r) = rowLine r ∧
  pyInt r.ageF = some r.ageV ∧ pyInt r.startF = some r.startV ∧ pyInt r.currF = some r.currV

/-- A malformed line: the comma-split does not have exactly five fields, or it
does and one of the three numeric fields is not an integer literal. -/
def badLine (l : List Char) : Prop :=
  (splitOn ',' (pyStrip l)).length ≠ 5 ∨
  ∃ n b a st cu, splitOn ',' (pyStrip l) = [n, b, a, st, cu] ∧
    (pyInt a = none ∨ pyInt st = none ∨ pyInt cu = none)

/-- A concrete well-formed row (used as witness input). -/
def row_josh : Row :=
  ⟨"Josh".toList, "Chase".toList, "2".toList, "100".toList, "300".toList, 2, 100, 300⟩

/-- A filesystem whose every file holds exactly the line of `row_josh`. -/
def fsRowJosh : FileSys := fun _ => some [rowLine row_josh]

/-- Well-formedness of a row is decidable. -/
instance (r : Row) : Decidable (goodRow r) := by
  unfold goodRow
  infer_instance

/-! ### Bridge from the scan loop to `List.argmax` -/

lemma largestEarnings_eq_gen : largestEarnings = largestGen Client.earnings_per_day := rfl

lemma largestLoss_eq_gen : largestLoss = largestGen loss_per_day := rfl

lemma genKey_lt_iff (rate : Client → ℚ) (b c : Client) :
    genKey rate b < genKey rate c ↔
      (rate b < rate c ∨ (rate b = rate c ∧ c.account_age < b.account_age)) := by
  rw [genKey, genKey, Prod.Lex.lt_iff]
  simp

lemma genKey_le_iff (rate : Client → ℚ) (b c : Client) :
    genKey rate b ≤ genKey rate c ↔
      (rate b < rate c ∨ (rate b = rate c ∧ c.account_age ≤ b.account_age)) := by
  rw [genKey, genKey, Prod.Lex.le_iff]
  simp

/-- One loop iteration seen through `stOf` is exactly `List.argAux` for the
lexicographic key. -/
lemma updateBest_stOf (rate : Client → ℚ) (o : Option Client) (c : Client) :
    updateBest (stOf rate o) (rate c) c
      = stOf rate (List.argAux (fun b d => genKey rate d < genKey rate b) o c) := by
  cases o with
  | none =>
    have hb : (⊥ : WithBot ℚ) < (rate c : WithBot ℚ) := WithBot.bot_lt_coe _
    simp [updateBest, stOf, initState, List.argAux, hb]
  | some b =>
    have hcond :
        ((rate c : WithBot ℚ) > ((rate b : ℚ) : WithBot ℚ) ∨
          ((rate c : WithBot ℚ) = ((rate b : ℚ) : WithBot ℚ) ∧
            ((c.account_age : ℤ) : WithTop ℤ) < ((b.account_age : ℤ) : WithTop ℤ)))
          ↔ genKey rate b < genKey rate c := by
      rw [genKey_lt_iff]
      constructor
      · rintro (h | ⟨h1, h2⟩)
        · exact Or.inl (WithBot.coe_lt_coe.mp h)
        · exact Or.inr ⟨(WithBot.coe_inj.mp h1).symm, WithTop.coe_lt_coe.mp h2⟩
      · rintro (h | ⟨h1, h2⟩)
        · exact Or.inl (WithBot.coe_lt_coe.mpr h)
        · exact Or.inr ⟨WithBot.coe_inj.mpr h1.symm, WithTop.coe_lt_coe.mpr h2⟩
    unfold updateBest
    split_ifs with hc
    · have h : genKey rate b < genKey rate c := hcond.mp hc
      simp [List.argAux, stOf, h]
    · have h : ¬genKey rate b < genKey rate c := fun hh => hc (hcond.mpr hh)
      simp [List.argAux, stOf, h]

lemma foldl_updateBest (rate : Client → ℚ) (l : List Client) (o : Option Client) :
    l.foldl (fun st c => updateBest st (rate c) c) (stOf rate o)
      = stOf rate (l.foldl (List.argAux fun b d => genKey rate d < genKey rate b) o) := by
  induction l generalizing o with
  | nil => rfl
  | cons c rest ih =>
    rw [List.foldl_cons, List.foldl_cons, updateBest_stOf, ih]

lemma scan_eq_argmax (rate : Client → ℚ) (l : List Client) :
    l.foldl (fun st c => updateBest st (rate c) c) initState
      = stOf rate (l.argmax (genKey rate)) := by
  have h := foldl_updateBest rate l none
  rw [show stOf rate none = initState from rfl] at h
  rw [h, List.argmax]

/-- The two extremal functions, characterised by `List.argmax` over the
lexicographic key followed by the positivity threshold. -/
lemma largestGen_eq (rate : Client → ℚ) (l : List Client) :
    largestGen rate l
      = match l.argmax (genKey rate) with
        | none => none
        | some m => if 0 < rate m then some m else none := by
  rw [largestGen, scan_eq_argmax]
  cases h : l.argmax (genKey rate) with
  | none => simp [stOf, finalGate, initState]
  | some m =>
    simp only [stOf, finalGate]
    by_cases hp : 0 < rate m
    · rw [if_pos (WithBot.coe_lt_coe.mpr hp), if_pos hp]
    · rw [if_neg (fun hc => hp (WithBot.coe_lt_coe.mp hc)), if_neg hp]

/-! ### Agreement of the exception-modelling scans with the total ones -/

lemma scanChk_eq_ok (rcChk : Client → Except PyErr ℚ) (rc : Client → ℚ) :
    ∀ (l : List Client), (∀ c ∈ l, rcChk c = .ok (rc c)) → ∀ st : ScanState,
      scanChk rcChk st l = .ok (l.foldl (fun s c => updateBest s (rc c) c) st) := by
  intro l
  induction l with
  | nil => intro _ st; rfl
  | cons c rest ih =>
    intro h st
    have hc : rcChk c = .ok (rc c) := h c (List.mem_cons_self c rest)
    simp only [scanChk, hc, List.foldl_cons]
    exact ih (fun d hd => h d (List.mem_cons_of_mem c hd)) _

lemma largestEarningsChk_eq (clients : List Client)
    (hA : ∀ c ∈ clients, c.account_age ≠ 0) :
    largestEarningsChk clients = .ok (largestEarnings clients) := by
  rw [largestEarningsChk, scanChk_eq_ok Client.earnings_per_day_chk Client.earnings_per_day
    clients (fun c hc => by rw [Client.earnings_per_day_chk, if_neg (hA c hc)]) initState]
  rfl

lemma largestLossChk_eq (clients : List Client)
    (hA : ∀ c ∈ clients, c.account_age ≠ 0) :
    largestLossChk clients = .ok (largestLoss clients) := by
  rw [largestLossChk, scanChk_eq_ok loss_per_day_chk loss_per_day
    clients (fun c hc => by rw [loss_per_day_chk, if_neg (hA c hc)]) initState]
  rfl

/-! ### Characterisation of the extremal search -/

/-- Whenever some record has a strictly positive rate, the scan returns a
record; it attains the maximal rate, has the minimal account age among the
records attaining that rate, and is the earliest-listed among exact
(rate, age) ties. -/
lemma largestGen_spec (rate : Client → ℚ) (clients : List Client)
    (hpos : ∃ c ∈ clients, 0 < rate c) :
    ∃ r, largestGen rate clients = some r ∧ r ∈ clients ∧
      (∀ c ∈ clients, rate c ≤ rate r) ∧
      (∀ c ∈ clients, rate c = rate r → r.account_age ≤ c.account_age) ∧
      (∀ c ∈ clients, rate c = rate r → c.account_age = r.account_age →
        clients.indexOf r ≤ clients.indexOf c) := by
  obtain ⟨c0, hc0, hc0pos⟩ := hpos
  have hne : clients ≠ [] := by rintro rfl; simp at hc0
  obtain ⟨m, hm⟩ : ∃ m, clients.argmax (genKey rate) = some m := by
    cases h : clients.argmax (genKey rate) with
    | none => exact absurd (List.argmax_eq_none.mp h) hne
    | some m => exact ⟨m, rfl⟩
  have hmmem : m ∈ clients.argmax (genKey rate) := Option.mem_def.mpr hm
  have hmem : m ∈ clients := List.argmax_mem hmmem
  have hle : ∀ c ∈ clients, genKey rate c ≤ genKey rate m :=
    fun c hc => List.le_of_mem_argmax hc hmmem
  have hratemax : ∀ c ∈ clients, rate c ≤ rate m := by
    intro c hc
    rcases (genKey_le_iff rate c m).mp (hle c hc) with h | ⟨h1, _⟩
    · exact le_of_lt h
    · exact le_of_eq h1
  have hmpos : 0 < rate m := lt_of_lt_of_le hc0pos (hratemax c0 hc0)
  refine ⟨m, ?_, hmem, hratemax, ?_, ?_⟩
  · rw [largestGen_eq, hm]
    show (if 0 < rate m then some m else none) = some m
    rw [if_pos hmpos]
  · intro c hc hrc
    rcases (genKey_le_iff rate c m).mp (hle c hc) with h | ⟨_, h2⟩
    · exact absurd h (by rw [hrc]; exact lt_irrefl _)
    · exact h2
  · intro c hc hrc hac
    exact List.index_of_argmax hmmem hc
      (le_of_eq (by rw [genKey, genKey, hrc, hac]))

/-- The scan returns `none` exactly when the list is empty or every rate is
non-positive. -/
lemma largestGen_none_iff (rate : Client → ℚ) (clients : List Client) :
    largestGen rate clients = none ↔ (clients = [] ∨ ∀ c ∈ clients, rate c ≤ 0) := by
  rw [largestGen_eq]
  cases h : clients.argmax (genKey rate) with
  | none =>
    simp [List.argmax_eq_none.mp h]
  | some m =>
    have hne : clients ≠ [] := by
      rintro rfl; rw [List.argmax_nil] at h; cases h
    have hmmem : m ∈ clients.argmax (genKey rate) := Option.mem_def.mpr h
    have hmem : m ∈ clients := List.argmax_mem hmmem
    rw [show (match some m with
        | none => none
        | some m => if 0 < rate m then some m else none : Option Client)
      = (if 0 < rate m then some m else none) from rfl]
    constructor
    · intro hnone
      by_cases hp : 0 < rate m
      · rw [if_pos hp] at hnone; cases hnone
      · refine Or.inr (fun c hc => ?_)
        have hcm : rate c ≤ rate m := by
          rcases (genKey_le_iff rate c m).mp (List.le_of_mem_argmax hc hmmem) with hlt | ⟨h1, _⟩
          · exact le_of_lt hlt
          · exact le_of_eq h1
        exact le_trans hcm (not_lt.mp hp)
    · rintro (rfl | hall)
      · exact absurd rfl hne
      · rw [if_neg (not_lt.mpr (hall m hmem))]

/-- A singleton list: the single record is returned iff its rate is
strictly positive. -/
lemma largestGen_singleton (rate : Client → ℚ) (c : Client) :
    largestGen rate [c] = if 0 < rate c then some c else none := by
  rw [largestGen_eq, List.argmax_singleton]

/-! ### Claims -/

/-- C1: for every record sequence, in both earn and loss modes the extremal
search returns, among the records attaining the maximal rate, one with
minimal account age; among exact (rate, age) ties the earliest-encountered
record in input order is returned. -/
theorem c1_extremal_tie_break (clients : List Client)
    (hA : ∀ c ∈ clients, c.account_age ≠ 0)
    (hE : ∃ c ∈ clients, 0 < c.earnings_per_day)
    (hL : ∃ c ∈ clients, 0 < loss_per_day c) :
    (∃ r, largestEarningsChk clients = .ok (some r) ∧ r ∈ clients ∧
      (∀ c ∈ clients, c.earnings_per_day ≤ r.earnings_per_day) ∧
      (∀ c ∈ clients, c.earnings_per_day = r.earnings_per_day →
        r.account_age ≤ c.account_age) ∧
      (∀ c ∈ clients, c.earnings_per_day = r.earnings_per_day →
        c.account_age = r.account_age → clients.indexOf r ≤ clients.indexOf c)) ∧
    (∃ r, largestLossChk clients = .ok (some r) ∧ r ∈ clients ∧
      (∀ c ∈ clients, loss_per_day c ≤ loss_per_day r) ∧
      (∀ c ∈ clients, loss_per_day c = loss_per_day r →
        r.account_age ≤ c.account_age) ∧
      (∀ c ∈ clients, loss_per_day c = loss_per_day r →
        c.account_age = r.account_age → clients.indexOf r ≤ clients.indexOf c)) := by
  constructor
  · obtain ⟨r, hr, hmem, hmax, hage, hidx⟩ :=
      largestGen_spec Client.earnings_per_day clients hE
    refine ⟨r, ?_, hmem, hmax, hage, hidx⟩
    rw [largestEarningsChk_eq clients hA, largestEarnings_eq_gen, hr]
  · obtain ⟨r, hr, hmem, hmax, hage, hidx⟩ :=
      largestGen_spec loss_per_day clients hL
    refine ⟨r, ?_, hmem, hmax, hage, hidx⟩
    rw [largestLossChk_eq clients hA, largestLoss_eq_gen, hr]

/-- Witness for C1 at the concrete list `[josh, franz]`. -/
theorem c1_extremal_tie_break_witness :
    (∃ r, largestEarningsChk [josh, franz] = .ok (some r) ∧ r ∈ [josh, franz] ∧
      (∀ c ∈ [josh, franz], c.earnings_per_day ≤ r.earnings_per_day) ∧
      (∀ c ∈ [josh, franz], c.earnings_per_day = r.earnings_per_day →
        r.account_age ≤ c.account_age) ∧
      (∀ c ∈ [josh, franz], c.earnings_per_day = r.earnings_per_day →
        c.account_age = r.account_age →
        [josh, franz].indexOf r ≤ [josh, franz].indexOf c)) ∧
    (∃ r, largestLossChk [josh, franz] = .ok (some r) ∧ r ∈ [josh, franz] ∧
      (∀ c ∈ [josh, franz], loss_per_day c ≤ loss_per_day r) ∧
      (∀ c ∈ [josh, franz], loss_per_day c = loss_per_day r →
        r.account_age ≤ c.account_age) ∧
      (∀ c ∈ [josh, franz], loss_per_day c = loss_per_day r →
        c.account_age = r.account_age →
        [josh, franz].indexOf r ≤ [josh, franz].indexOf c)) :=
  c1_extremal_tie_break [josh, franz] (by decide)
    ⟨josh, by simp, by norm_num [josh, Client.earnings_per_day]⟩
    ⟨franz, by simp, by norm_num [franz, loss_per_day]⟩

/-- C2: each extremal search returns `None` iff the list is empty or every
rate for its mode is non-positive; the empty list yields `None` in both
modes, and a single record is returned exactly when its rate is strictly
positive. -/
theorem c2_none_iff_nonpositive :
    (∀ clients : List Client, (∀ c ∈ clients, c.account_age ≠ 0) →
      (largestEarningsChk clients = .ok none ↔
        (clients = [] ∨ ∀ c ∈ clients, c.earnings_per_day ≤ 0)) ∧
      (largestLossChk clients = .ok none ↔
        (clients = [] ∨ ∀ c ∈ clients, loss_per_day c ≤ 0))) ∧
    largestEarningsChk [] = .ok none ∧ largestLossChk [] = .ok none ∧
    (∀ c : Client, c.account_age ≠ 0 →
      largestEarningsChk [c] = .ok (if 0 < c.earnings_per_day then some c else none) ∧
      largestLossChk [c] = .ok (if 0 < loss_per_day c then some c else none)) := by
  refine ⟨fun clients hA => ⟨?_, ?_⟩, rfl, rfl, fun c hc => ⟨?_, ?_⟩⟩
  · rw [largestEarningsChk_eq clients hA, largestEarnings_eq_gen]
    simp only [Except.ok.injEq]
    exact largestGen_none_iff Client.earnings_per_day clients
  · rw [largestLossChk_eq clients hA, largestLoss_eq_gen]
    simp only [Except.ok.injEq]
    exact largestGen_none_iff loss_per_day clients
  · rw [largestEarningsChk_eq [c]
      (fun d hd => by rw [List.mem_singleton] at hd; rwa [hd]),
      largestEarnings_eq_gen, largestGen_singleton]
  · rw [largestLossChk_eq [c]
      (fun d hd => by rw [List.mem_singleton] at hd; rwa [hd]),
      largestLoss_eq_gen, largestGen_singleton]

/-- Witness for C2 at the concrete lists `[ann]`, `[]` and `[josh]`. -/
theorem c2_none_iff_nonpositive_witness :
    (largestEarningsChk [ann] = .ok none ↔
      ([ann] = [] ∨ ∀ c ∈ [ann], c.earnings_per_day ≤ 0)) ∧
    largestEarningsChk [] = .ok none ∧
    largestLossChk [josh] = .ok (if 0 < loss_per_day josh then some josh else none) :=
  ⟨(c2_none_iff_nonpositive.1 [ann] (by decide)).1,
    c2_none_iff_nonpositive.2.1,
    (c2_none_iff_nonpositive.2.2.2 josh (by decide)).2⟩

/-- C8: when every account age is nonzero, the rate computations never take
the `ZeroDivisionError` branch: the checked variants return exactly the total
values. -/
theorem c8_no_division_by_zero (clients : List Client)
    (hA : ∀ c ∈ clients, c.account_age ≠ 0) :
    (∀ c ∈ clients, c.earnings_per_day_chk = .ok c.earnings_per_day ∧
      loss_per_day_chk c = .ok (loss_per_day c)) ∧
    largestEarningsChk clients = .ok (largestEarnings clients) ∧
    largestLossChk clients = .ok (largestLoss clients) := by
  refine ⟨fun c hc => ⟨?_, ?_⟩, largestEarningsChk_eq clients hA,
    largestLossChk_eq clients hA⟩
  · rw [Client.earnings_per_day_chk, if_neg (hA c hc)]
  · rw [loss_per_day_chk, if_neg (hA c hc)]

/-- Witness for C8 at the concrete list `[josh]`. -/
theorem c8_no_division_by_zero_witness :
    (∀ c ∈ [josh], c.earnings_per_day_chk = .ok c.earnings_per_day ∧
      loss_per_day_chk c = .ok (loss_per_day c)) ∧
    largestEarningsChk [josh] = .ok (largestEarnings [josh]) ∧
    largestLossChk [josh] = .ok (largestLoss [josh]) :=
  c8_no_division_by_zero [josh] (by decide)

/-- C3: a missing file is absorbed: the read returns the empty list (after a
printed notice, an effect outside this value model), no exception reaches the
caller, the filter returns the empty list and both extremal searches return
`None`. -/
theorem c3_missing_file (fs : FileSys) (filename : List Char)
    (h : fs filename = none) :
    read_from_file_into_list fs filename = .ok [] ∧
    (∀ bank, filter_by_bank fs filename bank = .ok []) ∧
    largest_earnings_per_day fs filename = .ok none ∧
    largest_loss_per_day fs filename = .ok none := by
  have hr : read_from_file_into_list fs filename = .ok [] := by
    rw [read_from_file_into_list, h]
  refine ⟨hr, fun bank => ?_, ?_, ?_⟩
  · rw [filter_by_bank, hr]; rfl
  · rw [largest_earnings_per_day, hr]; rfl
  · rw [largest_loss_per_day, hr]; rfl

/-- Witness for C3 on the empty filesystem. -/
theorem c3_missing_file_witness :
    read_from_file_into_list fsMissing fname_main = .ok [] ∧
    (∀ bank, filter_by_bank fsMissing fname_main bank = .ok []) ∧
    largest_earnings_per_day fsMissing fname_main = .ok none ∧
    largest_loss_per_day fsMissing fname_main = .ok none :=
  c3_missing_file fsMissing fname_main rfl

/-- C4: a record is in the filtered list iff its bank equals the given bank
(case-sensitive, exact), the result is a sublist of the input (so relative
order is preserved), and it is empty when nothing matches. -/
theorem c4_filter_by_bank (clients : List Client) (bank : List Char) :
    (∀ r : Client, r ∈ filterClients clients bank ↔ (r ∈ clients ∧ r.bank = bank)) ∧
    (filterClients clients bank).Sublist clients ∧
    ((∀ r ∈ clients, r.bank ≠ bank) → filterClients clients bank = []) := by
  refine ⟨fun r => ?_, List.filter_sublist _, fun h => ?_⟩
  · rw [filterClients, List.mem_filter]
    simp only [beq_iff_eq]
  · rw [filterClients, List.filter_eq_nil_iff]
    intro r hr
    simp only [beq_iff_eq]
    exact h r hr

/-- Witness for C4 at a concrete list and bank. -/
theorem c4_filter_by_bank_witness :
    (josh ∈ filterClients [josh, franz] "Chase".toList ↔
      (josh ∈ [josh, franz] ∧ josh.bank = "Chase".toList)) ∧
    filterClients [josh, franz] "Sprint".toList = [] :=
  ⟨(c4_filter_by_bank [josh, franz] "Chase".toList).1 josh,
    (c4_filter_by_bank [josh, franz] "Sprint".toList).2.2 (by decide)⟩

/-! ### C9: loss mode as negated earn mode -/

lemma earnChk_swap (c : Client) :
    (swapAmounts c).earnings_per_day_chk = loss_per_day_chk c := rfl

lemma updateBest_swap (st : ScanState) (r : ℚ) (c : Client) :
    updateBest (stSwap st) r (swapAmounts c) = stSwap (updateBest st r c) := by
  obtain ⟨m, t, o⟩ := st
  unfold updateBest stSwap swapAmounts
  dsimp only
  split_ifs <;> rfl

lemma scanChk_swap (clients : List Client) :
    ∀ st : ScanState,
      scanChk Client.earnings_per_day_chk (stSwap st) (clients.map swapAmounts)
        = (scanChk loss_per_day_chk st clients).map stSwap := by
  induction clients with
  | nil => intro st; rfl
  | cons c rest ih =>
    intro st
    rw [List.map_cons]
    simp only [scanChk, earnChk_swap]
    cases h : loss_per_day_chk c with
    | error e => rfl
    | ok r =>
      show scanChk Client.earnings_per_day_chk (updateBest (stSwap st) r (swapAmounts c))
          (rest.map swapAmounts)
        = (scanChk loss_per_day_chk (updateBest st r c) rest).map stSwap
      rw [updateBest_swap]
      exact ih _

lemma finalGate_stSwap (st : ScanState) :
    finalGate (stSwap st) = (finalGate st).map swapAmounts := by
  obtain ⟨m, t, o⟩ := st
  unfold finalGate stSwap
  dsimp only
  split_ifs <;> rfl

/-- C9: the loss rate is the negated earn rate, and the loss-mode search on a
list makes the same choice (by position) as the earn-mode search on the list
with every record's starting and current amounts swapped. -/
theorem c9_loss_is_negated_earn :
    (∀ c : Client, c.account_age ≠ 0 → loss_per_day c = -c.earnings_per_day) ∧
    (∀ clients : List Client,
      largestEarningsChk (clients.map swapAmounts)
        = (largestLossChk clients).map (Option.map swapAmounts)) := by
  constructor
  · intro c _
    rw [loss_per_day, Client.earnings_per_day, ← neg_div, neg_sub]
  · intro clients
    have h1 : largestEarningsChk (clients.map swapAmounts)
        = (scanChk Client.earnings_per_day_chk (stSwap initState)
            (clients.map swapAmounts)).map finalGate := rfl
    rw [h1, scanChk_swap, largestLossChk]
    cases scanChk loss_per_day_chk initState clients with
    | error e => rfl
    | ok st =>
      show Except.ok (finalGate (stSwap st)) = Except.ok ((finalGate st).map swapAmounts)
      rw [finalGate_stSwap]

/-- Witness for C9 at `josh` and the list `[franz]`. -/
theorem c9_loss_is_negated_earn_witness :
    loss_per_day josh = -josh.earnings_per_day ∧
    largestEarningsChk ([franz].map swapAmounts)
      = (largestLossChk [franz]).map (Option.map swapAmounts) :=
  ⟨c9_loss_is_negated_earn.1 josh (by decide), c9_loss_is_negated_earn.2 [franz]⟩

/-! ### Parsing lemmas -/

lemma splitOn_of_not_mem (sep : Char) (l : List Char) (h : sep ∉ l) :
    splitOn sep l = [l] := by
  induction l with
  | nil => rfl
  | cons c rest ih =>
    have hc : ¬c = sep := fun hc => h (hc ▸ List.mem_cons_self c rest)
    rw [splitOn, if_neg hc, ih (fun hm => h (List.mem_cons_of_mem c hm))]

lemma splitOn_append (sep : Char) (x rest : List Char) (h : sep ∉ x) :
    splitOn sep (x ++ sep :: rest) = x :: splitOn sep rest := by
  induction x with
  | nil =>
    rw [List.nil_append, splitOn, if_pos rfl]
  | cons c cx ih =>
    have hc : ¬c = sep := fun hc => h (hc ▸ List.mem_cons_self c cx)
    rw [List.cons_append, splitOn, if_neg hc,
      ih (fun hm => h (List.mem_cons_of_mem c hm))]

/-- A well-formed row parses to exactly its record: name and bank verbatim,
numeric fields by their integer casts. -/
lemma parseLine_rowLine (r : Row) (hg : goodRow r) :
    parseLine (rowLine r) = .ok (rowClient r) := by
  obtain ⟨h1, h2, h3, h4, h5, hstrip, ha, hs, hcu⟩ := hg
  rw [parseLine, hstrip, rowLine, splitOn_append _ _ _ h1, splitOn_append _ _ _ h2,
    splitOn_append _ _ _ h3, splitOn_append _ _ _ h4, splitOn_of_not_mem _ _ h5]
  simp only [parseFields, ha, hs, hcu]
  rfl

lemma parseLines_map_rowLine (rows : List Row) (h : ∀ r ∈ rows, goodRow r) :
    parseLines (rows.map rowLine) = .ok (rows.map rowClient) := by
  induction rows with
  | nil => rfl
  | cons r rest ih =>
    rw [List.map_cons, List.map_cons]
    simp only [parseLines, parseLine_rowLine r (h r (List.mem_cons_self r rest)),
      ih (fun d hd => h d (List.mem_cons_of_mem r hd))]

/-- C5: a well-formed file of N rows parses to exactly the N corresponding
records, in file order. -/
theorem c5_round_trip (fs : FileSys) (filename : List Char) (rows : List Row)
    (hfs : fs filename = some (rows.map rowLine))
    (hrows : ∀ r ∈ rows, goodRow r) :
    read_from_file_into_list fs filename = .ok (rows.map rowClient) ∧
    (rows.map rowClient).length = rows.length := by
  constructor
  · rw [read_from_file_into_list, hfs]
    exact parseLines_map_rowLine rows hrows
  · exact List.length_map rows rowClient

/-- Witness for C5 on a one-row file. -/
theorem c5_round_trip_witness :
    read_from_file_into_list fsRowJosh fname_main = .ok ([row_josh].map rowClient) ∧
    ([row_josh].map rowClient).length = [row_josh].length :=
  c5_round_trip fsRowJosh fname_main [row_josh] rfl (by decide)

/-- Counterexample to C7 as stated: an empty line raises a `ValueError`
rather than contributing no record, and fields are not individually trimmed
(a space after the comma stays in the `bank` field). -/
theorem c7_counterexample :
    parseLines [[]] = .error .valueError ∧
    parseLine "Ann, Sprint,1,2,3".toList
      = .ok ⟨"Ann".toList, " Sprint".toList, 1, 2, 3⟩ :=
  ⟨rfl, rfl⟩

/-- C7 as amended: only the line as a whole is stripped of surrounding
whitespace.  A line that strips to empty raises a `ValueError`; the split
fields are taken verbatim (no per-field trim) and the numeric fields go
through `int()`, which itself ignores surrounding whitespace. -/
theorem c7_amended_line_strip (l : List Char) :
    (pyStrip l = [] → parseLine l = .error .valueError) ∧
    (∀ n b a st cu : List Char,
      splitOn ',' (pyStrip l) = [n, b, a, st, cu] →
      ∀ av sv cv : ℤ, pyInt a = some av → pyInt st = some sv → pyInt cu = some cv →
        parseLine l = .ok ⟨n, b, av, sv, cv⟩) ∧
    pyInt (' ' :: l) = pyInt l := by
  refine ⟨?_, ?_, ?_⟩
  · intro h
    rw [parseLine, h]
    rfl
  · intro n b a st cu hsplit av sv cv ha hs hcu
    rw [parseLine, hsplit]
    simp only [parseFields, ha, hs, hcu]
  · have hstrip : pyStrip (' ' :: l) = pyStrip l := by
      simp only [pyStrip, stripLeft, List.dropWhile_cons]
      rw [if_pos (by rfl : isPySpace ' ' = true)]
    unfold pyInt
    rw [hstrip]

/-- Witness for C7's amended claim at a concrete line. -/
theorem c7_amended_line_strip_witness :
    parseLine ("   ".toList) = .error .valueError ∧
    parseLine "Ann, Sprint,1,2,3".toList
      = .ok ⟨"Ann".toList, " Sprint".toList, 1, 2, 3⟩ ∧
    pyInt (' ' :: "7".toList) = pyInt "7".toList :=
  ⟨(c7_amended_line_strip "   ".toList).1 (by decide),
    (c7_amended_line_strip "Ann, Sprint,1,2,3".toList).2.1
      "Ann".toList " Sprint".toList "1".toList "2".toList "3".toList
      (by decide) 1 2 3 (by decide) (by decide) (by decide),
    (c7_amended_line_strip "7".toList).2.2⟩

/-! ### C10: malformed lines raise -/

lemma parseFields_length_ne (xs : List (List Char)) (h : xs.length ≠ 5) :
    parseFields xs = .error .valueError := by
  match xs with
  | [] => rfl
  | [_] => rfl
  | [_, _] => rfl
  | [_, _, _] => rfl
  | [_, _, _, _] => rfl
  | [_, _, _, _, _] => exact absurd rfl h
  | _ :: _ :: _ :: _ :: _ :: _ :: _ => rfl

lemma parseFields_error_eq (xs : List (List Char)) (e : PyErr)
    (h : parseFields xs = .error e) : e = .valueError := by
  match xs with
  | [] => exact (Except.error.inj h).symm
  | [_] => exact (Except.error.inj h).symm
  | [_, _] => exact (Except.error.inj h).symm
  | [_, _, _] => exact (Except.error.inj h).symm
  | [_, _, _, _] => exact (Except.error.inj h).symm
  | [n, b, a, st, cu] =>
    cases hA : pyInt a <;> cases hS : pyInt st <;> cases hC : pyInt cu <;>
      simp_all [parseFields]
  | _ :: _ :: _ :: _ :: _ :: _ :: _ => exact (Except.error.inj h).symm

lemma parseLine_error_eq (l : List Char) (e : PyErr)
    (h : parseLine l = .error e) : e = .valueError :=
  parseFields_error_eq _ e h

lemma parseLine_of_badLine (l : List Char) (h : badLine l) :
    parseLine l = .error .valueError := by
  rcases h with h | ⟨n, b, a, st, cu, hsplit, hbad⟩
  · rw [parseLine]
    exact parseFields_length_ne _ h
  · rw [parseLine, hsplit]
    rcases hbad with ha | hs | hcu <;>
      (cases hA : pyInt a <;> cases hS : pyInt st <;> cases hC : pyInt cu <;>
        simp_all [parseFields])

lemma parseLines_error_of_badLine (lines : List (List Char))
    (h : ∃ l ∈ lines, badLine l) :
    parseLines lines = .error .valueError := by
  induction lines with
  | nil => obtain ⟨l, hl, _⟩ := h; cases hl
  | cons l0 rest ih =>
    obtain ⟨l, hl, hbad⟩ := h
    rcases List.mem_cons.mp hl with rfl | hmem
    · simp only [parseLines, parseLine_of_badLine l hbad]
    · simp only [parseLines]
      cases hpl : parseLine l0 with
      | error e =>
        rw [parseLine_error_eq l0 e hpl]
      | ok c =>
        rw [ih ⟨l, hmem, hbad⟩]

/-- C10: the parse boundary absorbs only the missing-file condition: a line
whose comma-split is not exactly five fields, or whose numeric fields are not
integer literals, raises a `ValueError` that propagates to the caller of all
three operations; no partial or empty list is returned. -/
theorem c10_malformed_line_raises (fs : FileSys) (filename : List Char)
    (lines : List (List Char)) (hfs : fs filename = some lines)
    (hbad : ∃ l ∈ lines, badLine l) :
    read_from_file_into_list fs filename = .error .valueError ∧
    (∀ bank, filter_by_bank fs filename bank = .error .valueError) ∧
    largest_earnings_per_day fs filename = .error .valueError ∧
    largest_loss_per_day fs filename = .error .valueError := by
  have hr : read_from_file_into_list fs filename = .error .valueError := by
    rw [read_from_file_into_list, hfs]
    exact parseLines_error_of_badLine lines hbad
  refine ⟨hr, fun bank => ?_, ?_, ?_⟩
  · rw [filter_by_bank, hr]; rfl
  · rw [largest_earnings_per_day, hr]; rfl
  · rw [largest_loss_per_day, hr]; rfl

/-- Witness for C10 on a file consisting of a single blank line. -/
theorem c10_malformed_line_raises_witness :
    read_from_file_into_list fsBlank fname_main = .error .valueError ∧
    (∀ bank, filter_by_bank fsBlank fname_main bank = .error .valueError) ∧
    largest_earnings_per_day fsBlank fname_main = .error .valueError ∧
    largest_loss_per_day fsBlank fname_main = .error .valueError :=
  c10_malformed_line_raises fsBlank fname_main [[]] rfl
    ⟨[], List.mem_singleton.mpr rfl, Or.inl (by decide)⟩

/-! ### C6: the concrete scenario -/

lemma updateBest_init (r : ℚ) (c : Client) :
    updateBest initState r c
      = ((r : WithBot ℚ), (c.account_age : WithTop ℤ), some c) := by
  unfold updateBest initState
  rw [if_pos (Or.inl (WithBot.bot_lt_coe r))]

lemma updateBest_coe_pos {m r : ℚ} {t : ℤ} {o : Option Client} {c : Client}
    (h : m < r) :
    updateBest ((m : WithBot ℚ), (t : WithTop ℤ), o) r c
      = ((r : WithBot ℚ), (c.account_age : WithTop ℤ), some c) := by
  unfold updateBest
  rw [if_pos (Or.inl (WithBot.coe_lt_coe.mpr h))]

lemma updateBest_coe_neg {m r : ℚ} {t : ℤ} {o : Option Client} {c : Client}
    (h1 : ¬m < r) (h2 : r = m → ¬c.account_age < t) :
    updateBest ((m : WithBot ℚ), (t : WithTop ℤ), o) r c
      = ((m : WithBot ℚ), (t : WithTop ℤ), o) := by
  unfold updateBest
  rw [if_neg]
  rintro (h | ⟨he, ha⟩)
  · exact h1 (WithBot.coe_lt_coe.mp h)
  · exact h2 (WithBot.coe_inj.mp he) (WithTop.coe_lt_coe.mp ha)

/-- C6: the concrete scenario: filtering by "Sprint" yields Ann then Mark,
the earn-mode search returns Josh (rate 100) and the loss-mode search
returns Franz (rate 200). -/
theorem c6_concrete_scenario :
    filter_by_bank fs_main fname_main "Sprint".toList = .ok [ann, mark] ∧
    largest_earnings_per_day fs_main fname_main = .ok (some josh) ∧
    josh.earnings_per_day = 100 ∧
    largest_loss_per_day fs_main fname_main = .ok (some franz) ∧
    loss_per_day franz = 200 := by
  have hread : read_from_file_into_list fs_main fname_main
      = .ok [ann, mark, josh, jonah, franz] := rfl
  refine ⟨?_, ?_, by norm_num [josh, Client.earnings_per_day], ?_,
    by norm_num [franz, loss_per_day]⟩
  · rw [filter_by_bank, hread]; rfl
  · rw [largest_earnings_per_day, hread]
    show largestEarningsChk [ann, mark, josh, jonah, franz] = .ok (some josh)
    have cha : ann.earnings_per_day_chk = .ok 0 := by
      rw [Client.earnings_per_day_chk, if_neg (by decide)]
      norm_num [ann, Client.earnings_per_day]
    have chm : mark.earnings_per_day_chk = .ok 20 := by
      rw [Client.earnings_per_day_chk, if_neg (by decide)]
      norm_num [mark, Client.earnings_per_day]
    have chj : josh.earnings_per_day_chk = .ok 100 := by
      rw [Client.earnings_per_day_chk, if_neg (by decide)]
      norm_num [josh, Client.earnings_per_day]
    have chjo : jonah.earnings_per_day_chk = .ok (-1) := by
      rw [Client.earnings_per_day_chk, if_neg (by decide)]
      norm_num [jonah, Client.earnings_per_day]
    have chf : franz.earnings_per_day_chk = .ok (-200) := by
      rw [Client.earnings_per_day_chk, if_neg (by decide)]
      norm_num [franz, Client.earnings_per_day]
    rw [largestEarningsChk]
    simp only [scanChk, cha, chm, chj, chjo, chf]
    rw [updateBest_init, updateBest_coe_pos (by norm_num),
      updateBest_coe_pos (by norm_num),
      updateBest_coe_neg (by norm_num) (fun he => absurd he (by norm_num)),
      updateBest_coe_neg (by norm_num) (fun he => absurd he (by norm_num))]
    show Except.ok (finalGate (((100 : ℚ) : WithBot ℚ),
      ((josh.account_age : ℤ) : WithTop ℤ), some josh)) = .ok (some josh)
    rw [finalGate, if_pos (WithBot.coe_lt_coe.mpr (by norm_num))]
  · rw [largest_loss_per_day, hread]
    show largestLossChk [ann, mark, josh, jonah, franz] = .ok (some franz)
    have cha : loss_per_day_chk ann = .ok 0 := by
      rw [loss_per_day_chk, if_neg (by decide)]
      norm_num [ann, loss_per_day]
    have chm : loss_per_day_chk mark = .ok (-20) := by
      rw [loss_per_day_chk, if_neg (by decide)]
      norm_num [mark, loss_per_day]
    have chj : loss_per_day_chk josh = .ok (-100) := by
      rw [loss_per_day_chk, if_neg (by decide)]
      norm_num [josh, loss_per_day]
    have chjo : loss_per_day_chk jonah = .ok 1 := by
      rw [loss_per_day_chk, if_neg (by decide)]
      norm_num [jonah, loss_per_day]
    have chf : loss_per_day_chk franz = .ok 200 := by
      rw [loss_per_day_chk, if_neg (by decide)]
      norm_num [franz, loss_per_day]
    rw [largestLossChk]
    simp only [scanChk, cha, chm, chj, chjo, chf]
    rw [updateBest_init,
      updateBest_coe_neg (by norm_num) (fun he => absurd he (by norm_num)),
      updateBest_coe_neg (by norm_num) (fun he => absurd he (by norm_num)),
      updateBest_coe_pos (by norm_num), updateBest_coe_pos (by norm_num)]
    show Except.ok (finalGate (((200 : ℚ) : WithBot ℚ),
      ((franz.account_age : ℤ) : WithTop ℤ), some franz)) = .ok (some franz)
    rw [finalGate, if_pos (WithBot.coe_lt_coe.mpr (by norm_num))]
